import Mathlib

/-!
Verification of the go-decorator generator (`decorator.go`).

The program is a code generator: it parses a Go file, selects an interface,
resolves the import set referenced by the interface's method signatures,
assigns synthetic names to parameters and results, and renders one wrapper
method per interface method from two fixed templates.  All of the logic the
claims are about is pure string processing, embedded below as executable
Lean functions.  Go's in-place mutation of descriptor names (`modifyNames`)
is embedded as a function returning the updated list; Go byte indices into
type strings are modelled at character level (the type texts involved are
ASCII).  The external collaborators (the `go-parser` library and
`go/format`) are parameters: the parser's output is the input data model,
and the formatter is a function argument of type `String → Except String String`.
-/

/-- Embeds Go's `strings.HasPrefix` at character level (the kernel-reducible
counterpart of `String.startsWith`). -/
def strStarts (s pre : String) : Bool :=
  pre.toList.isPrefixOf s.toList

/-- Embeds Go's `strings.HasSuffix` at character level (the kernel-reducible
counterpart of `String.endsWith`). -/
def strEnds (s suf : String) : Bool :=
  suf.toList.isSuffixOf s.toList

/-- Removes every leading and trailing occurrence of character `c` from `s`;
embeds Go's `strings.Trim(s, string(c))` for a one-character cutset. -/
def trimChar (c : Char) (s : String) : String :=
  String.mk (((s.toList.dropWhile (· == c)).reverse.dropWhile (· == c)).reverse)

/-- The parsed type descriptor (`parser.GoType`): a display name, the textual
type expression, and the nested descriptors of a composite type. -/
inductive GoType : Type where
  | mk (name : String) (type : String) (inner : List GoType)

def GoType.name : GoType → String
  | .mk n _ _ => n

def GoType.type : GoType → String
  | .mk _ t _ => t

def GoType.inner : GoType → List GoType
  | .mk _ _ i => i

/-- Replaces the descriptor's name field, keeping type text and children;
embeds the Go assignment `p.Name = ...`. -/
def GoType.withName : GoType → String → GoType
  | .mk _ t i, n => .mk n t i

/-- A parsed method (`parser.GoMethod`): name, parameters, results. -/
structure GoMethod : Type where
  name : String
  params : List GoType
  results : List GoType

/-- A parsed import declaration (`parser.GoImport`).  `name` is the alias
(empty when absent), `path` the quoted import path.  `prefixStr` is the
derived prefix the library's `Prefix()` method reports (the alias if
present, else the last path segment); the derivation itself lives in the
external `go-parser` library, so here it is carried as data. -/
structure GoImport : Type where
  name : String
  path : String
  prefixStr : String

/-- A parsed interface (`parser.GoInterface`); `filePackage` is the package
name reached through the back-reference `goInterface.File.Package`. -/
structure GoInterface : Type where
  name : String
  methods : List GoMethod
  filePackage : String

/-- A parsed file (`parser.GoFile`): its interfaces and import declarations. -/
structure GoFile : Type where
  interfaces : List GoInterface
  imports : List GoImport

/-- Embeds `importList.Set`: appends the new flag value to the list after
trimming surrounding double quotes and re-wrapping it in double quotes
(`fmt.Sprintf("\"%s\"", strings.Trim(value, "\""))`). -/
def importSet (flags : List String) (value : String) : List String :=
  flags ++ ["\"" ++ trimChar '"' value ++ "\""]

mutual
/-- Embeds `selectTypes`: a descriptor with no nested descriptors yields its
own type text; otherwise the leaves of its children, in order. -/
def selectTypes : GoType → List String
  | .mk _ t [] => [t]
  | .mk _ _ (g :: gs) => selectTypesList (g :: gs)

def selectTypesList : List GoType → List String
  | [] => []
  | g :: gs => selectTypes g ++ selectTypesList gs
end

/-- Embeds the loop body of `selectPrefixes`: trim `*` characters from the
leaf, and when the remainder contains a dot (`strings.Index(name, ".") > -1`)
append the text before the first dot to the accumulated result. -/
def selectPrefixesStep (result : List String) (name0 : String) : List String :=
  let name := trimChar '*' name0
  match name.toList.findIdx? (· == '.') with
  | some index => result ++ [String.mk (name.toList.take index)]
  | none => result

/-- Embeds `selectPrefixes`: the loop over the leaves. -/
def selectPrefixes (typeNames : List String) : List String :=
  typeNames.foldl selectPrefixesStep []

/-- Embeds `findPackages`: collect the leaves of every parameter and result
of every method, then extract the package prefixes. -/
def findPackages (goInterface : GoInterface) : List String :=
  let types := goInterface.methods.foldl (fun acc method =>
    acc ++ method.params.foldl (fun a f => a ++ selectTypes f) []
        ++ method.results.foldl (fun a f => a ++ selectTypes f) []) []
  selectPrefixes types

/-- Embeds the inner loop of `selectImports`: scan all import declarations
and append `fmt.Sprintf("%s %s", goImport.Name, goImport.Path)` for each one
whose derived prefix equals the selected name. -/
def selectImportsStep (allImports : List GoImport) (output : List String)
    (name : String) : List String :=
  allImports.foldl (fun out g =>
    if name == g.prefixStr then out ++ [g.name ++ " " ++ g.path] else out) output

/-- Embeds `selectImports`: the outer loop over the selected names. -/
def selectImports (allImports : List GoImport) (selectedNames : List String) : List String :=
  selectedNames.foldl (selectImportsStep allImports) []

/-- Embeds `lookupImports`: the `-import` flag entries first, then the
imports resolved from the interface's type references. -/
def lookupImports (goInterface : GoInterface) (allImports : List GoImport)
    (importFlag : List String) : List String :=
  importFlag ++ selectImports allImports (findPackages goInterface)

/-- Embeds `filterTypes`: the first interface with the requested name, or the
fatal diagnostic `log.Fatalf("Interface %s not found", name)`. -/
def filterTypes (types : GoFile) (name : String) : Except String GoInterface :=
  match types.interfaces.find? (fun gi => gi.name == name) with
  | some gi => Except.ok gi
  | none => Except.error ("Interface " ++ name ++ " not found")

/-- Embeds `parsePackage`.  The external parser is the argument `parse`.  A
path not ending in `".go"` returns `nil` without any diagnostic, embedded as
`Except.ok none`; a parser failure reaches `log.Fatal`, embedded as
`Except.error` carrying the diagnostic text. -/
def parsePackage (name : String) (parse : String → Except String GoFile) :
    Except String (Option GoFile) :=
  if ¬ strEnds name ".go" then Except.ok none
  else
    match parse name with
    | Except.error e => Except.error ("Failed to parse " ++ name ++ ", " ++ e)
    | Except.ok goFile => Except.ok (some goFile)

/-- Embeds the loop body of `modifyNames`: `i` is the running index of the
Go `for i, p := range params`, `length` the precomputed `len(params)`. -/
def modifyNamesAux (nameMethod : Nat → String → Nat → String) (length : Nat) :
    Nat → List GoType → List GoType
  | _, [] => []
  | i, p :: ps =>
      p.withName (nameMethod i p.type length) :: modifyNamesAux nameMethod length (i + 1) ps

/-- Embeds `modifyNames`: overwrite each descriptor's name with
`nameMethod(index, typeText, totalLength)`. -/
def modifyNames (params : List GoType) (nameMethod : Nat → String → Nat → String) :
    List GoType :=
  modifyNamesAux nameMethod params.length 0 params

/-- Embeds `methodReturnsError`: false for an empty result list, otherwise
whether the last result's type text is `"error"`. -/
def methodReturnsError (params : List GoType) : Bool :=
  match params.getLast? with
  | none => false
  | some p => p.type == "error"

/-- Embeds `nameParam`: the i-th parameter is named `p<i>`. -/
def nameParam (i : Nat) (_typeName : String) (_length : Nat) : String :=
  "p" ++ toString i

/-- Embeds `nameResult`: the last result is named `err` when its type is
`"error"`, every other result is named `v<i>`. -/
def nameResult (i : Nat) (typeName : String) (length : Nat) : String :=
  if i == length - 1 && typeName == "error" then "err" else "v" ++ toString i

/-- Embeds `formatNameAndType`: comma-joined `name type` pairs. -/
def formatNameAndType (params : List GoType) : String :=
  String.intercalate ", " (params.map (fun t => t.name ++ " " ++ t.type))

/-- Embeds `formatNames`: comma-joined names, appending `...` to a name when
ellipsis expansion is requested and its type text starts with `...`. -/
def formatNames (params : List GoType) (expandEllipsis : Bool) : String :=
  String.intercalate ", " (params.map (fun t =>
    if expandEllipsis && strStarts t.type "..." then t.name ++ "..." else t.name))

/-- Result of `formatSource`: the bytes returned to the caller and whether
the internal-error warning (`log.Printf("warning: ...")`) was recorded. -/
structure FormatResult : Type where
  output : String
  warned : Bool
deriving DecidableEq

/-- Embeds `formatSource`: ask the external formatter (`go/format`); on
failure, record the warning and return the raw buffer unchanged; on success
return the formatter's output. -/
def formatSource (buf : String) (formatter : String → Except String String) : FormatResult :=
  match formatter buf with
  | Except.error _ => { output := buf, warned := true }
  | Except.ok src => { output := src, warned := false }

/-- Embeds the `structFormat` template instantiated at the interface name
(Go braces are written `\x7b`/`\x7d`). -/
def structFormat (name : String) : String :=
  "type " ++ name ++ "Decorator struct \x7b\n\tInner " ++ name ++
    "\n\tDecorator func(name string, call func() error) error\n\x7d\n"

/-- Embeds the `methodFormatWithErr` template applied to its seven
positional arguments, in the source's argument order. -/
def methodFormatWithErr (name methodName params returns returnArgs passArgs equals : String) :
    String :=
  "func (this * " ++ name ++ "Decorator) " ++ methodName ++ "(" ++ params ++ ") (" ++
    returns ++ ") \x7b\n\tcall := func() error \x7b\n\t\tvar err error\n\t\t" ++
    returnArgs ++ " " ++ equals ++ " this.Inner." ++ methodName ++ "(" ++ passArgs ++
    ")\n\t\treturn err\n\t\x7d\n\terr = this.Decorator(\"" ++ methodName ++
    "\", call)\n\treturn " ++ returnArgs ++ "\n\x7d\n"

/-- Embeds the `methodFormatNoErr` template applied to its seven positional
arguments, in the source's argument order. -/
def methodFormatNoErr (name methodName params returns returnArgs passArgs equals : String) :
    String :=
  "func (this * " ++ name ++ "Decorator) " ++ methodName ++ "(" ++ params ++ ") (" ++
    returns ++ ") \x7b\n\tcall := func() error \x7b\n\t\t" ++
    returnArgs ++ " " ++ equals ++ " this.Inner." ++ methodName ++ "(" ++ passArgs ++
    ")\n\t\treturn nil\n\t\x7d\n\t_ = this.Decorator(\"" ++ methodName ++
    "\", call)\n\treturn " ++ returnArgs ++ "\n\x7d\n"

/-- Embeds `writeMethod`: choose the template by `methodReturnsError` on the
(pre-rename) results, rename parameters and results, format the pieces, and
instantiate the template.  The Go code mutates `method.Params`/`method.Results`
in place after computing the classification; here the renamed lists are bound
locally, which is the same data flow. -/
def writeMethod (method : GoMethod) (name : String) : String :=
  let withErr := methodReturnsError method.results
  let params := modifyNames method.params nameParam
  let results := modifyNames method.results nameResult
  let methodName := method.name
  let paramsStr := formatNameAndType params
  let returnsStr := formatNameAndType results
  let passArgs := formatNames params true
  let returnArgs := formatNames results false
  let equals := if method.results.length > 0 then "=" else ""
  if withErr then
    methodFormatWithErr name methodName paramsStr returnsStr returnArgs passArgs equals
  else
    methodFormatNoErr name methodName paramsStr returnsStr returnArgs passArgs equals

/-- Embeds `writeDecorator`: header, package clause, import block, struct
declaration and one body per method, concatenated and passed through
`formatSource`.  (`fmt.Fprintf(b, methodBody)` treats the body as a format
string, but the generated bodies contain no `%`, so it is a plain write.) -/
def writeDecorator (goInterface : GoInterface) (allImports : List GoImport)
    (importFlag : List String) (formatter : String → Except String String) : String :=
  let header := "// Generated by go-decorator, DO NOT EDIT\n"
  let pkgClause := "package " ++ goInterface.filePackage ++ "\n"
  let imports := lookupImports goInterface allImports importFlag
  let importBlock := "import (" ++
    String.join (imports.map (fun n => "\t" ++ n ++ "\n")) ++ ")\n"
  let structDecl := structFormat goInterface.name
  let bodies := String.join (goInterface.methods.map (fun m => writeMethod m goInterface.name))
  (formatSource (header ++ pkgClause ++ importBlock ++ structDecl ++ bodies) formatter).output

/-! ### Helper lemmas -/

theorem GoType.type_withName (p : GoType) (n : String) : (p.withName n).type = p.type := by
  cases p
  rfl

theorem GoType.inner_withName (p : GoType) (n : String) : (p.withName n).inner = p.inner := by
  cases p
  rfl

theorem GoType.name_withName (p : GoType) (n : String) : (p.withName n).name = n := by
  cases p
  rfl

theorem modifyNamesAux_getElem? (f : Nat → String → Nat → String) (L : Nat) :
    ∀ (ps : List GoType) (start i : Nat),
      (modifyNamesAux f L start ps)[i]? =
        (ps[i]?).map (fun p => p.withName (f (start + i) p.type L))
  | [], _, i => by simp [modifyNamesAux]
  | p :: ps, start, 0 => by simp [modifyNamesAux]
  | p :: ps, start, i + 1 => by
      have ih := modifyNamesAux_getElem? f L ps (start + 1) i
      have harith : start + 1 + i = start + (i + 1) := by omega
      simp only [modifyNamesAux, List.getElem?_cons_succ, ih, harith]

theorem modifyNames_getElem? (ps : List GoType) (f : Nat → String → Nat → String) (i : Nat) :
    (modifyNames ps f)[i]? = (ps[i]?).map (fun p => p.withName (f i p.type ps.length)) := by
  have h := modifyNamesAux_getElem? f ps.length ps 0 i
  simpa [modifyNames] using h

theorem modifyNamesAux_map_type (f : Nat → String → Nat → String) (L : Nat) :
    ∀ (ps : List GoType) (start : Nat),
      (modifyNamesAux f L start ps).map GoType.type = ps.map GoType.type
  | [], _ => rfl
  | p :: ps, start => by
      simp [modifyNamesAux, GoType.type_withName, modifyNamesAux_map_type f L ps (start + 1)]

theorem modifyNamesAux_map_inner (f : Nat → String → Nat → String) (L : Nat) :
    ∀ (ps : List GoType) (start : Nat),
      (modifyNamesAux f L start ps).map GoType.inner = ps.map GoType.inner
  | [], _ => rfl
  | p :: ps, start => by
      simp [modifyNamesAux, GoType.inner_withName, modifyNamesAux_map_inner f L ps (start + 1)]

theorem modifyNamesAux_length (f : Nat → String → Nat → String) (L : Nat) :
    ∀ (ps : List GoType) (start : Nat), (modifyNamesAux f L start ps).length = ps.length
  | [], _ => rfl
  | _ :: ps, start => by
      simp [modifyNamesAux, modifyNamesAux_length f L ps (start + 1)]

theorem modifyNames_length (ps : List GoType) (f : Nat → String → Nat → String) :
    (modifyNames ps f).length = ps.length :=
  modifyNamesAux_length f ps.length ps 0

theorem modifyNames_map_type (ps : List GoType) (f : Nat → String → Nat → String) :
    (modifyNames ps f).map GoType.type = ps.map GoType.type :=
  modifyNamesAux_map_type f ps.length ps 0

theorem modifyNames_map_inner (ps : List GoType) (f : Nat → String → Nat → String) :
    (modifyNames ps f).map GoType.inner = ps.map GoType.inner :=
  modifyNamesAux_map_inner f ps.length ps 0

theorem modifyNames_getLast? (rs : List GoType) (f : Nat → String → Nat → String) :
    (modifyNames rs f).getLast? =
      (rs.getLast?).map (fun p => p.withName (f (rs.length - 1) p.type rs.length)) := by
  rw [List.getLast?_eq_getElem?, List.getLast?_eq_getElem?, modifyNames_length,
    modifyNames_getElem?]

theorem methodReturnsError_modifyNames (rs : List GoType) (f : Nat → String → Nat → String) :
    methodReturnsError (modifyNames rs f) = methodReturnsError rs := by
  unfold methodReturnsError
  rw [modifyNames_getLast?]
  cases rs.getLast? with
  | none => rfl
  | some p => simp [GoType.type_withName]

theorem modifyNamesAux_map_withName (f : Nat → String → Nat → String) (L : Nat) (s : String) :
    ∀ (ps : List GoType) (start : Nat),
      modifyNamesAux f L start (ps.map (fun p => p.withName s)) = modifyNamesAux f L start ps
  | [], _ => rfl
  | p :: ps, start => by
      simp only [List.map_cons, modifyNamesAux,
        modifyNamesAux_map_withName f L s ps (start + 1)]
      cases p
      rfl

theorem modifyNames_overwrites (ps : List GoType) (f : Nat → String → Nat → String)
    (s : String) : modifyNames (ps.map (fun p => p.withName s)) f = modifyNames ps f := by
  unfold modifyNames
  rw [List.length_map]
  exact modifyNamesAux_map_withName f ps.length s ps 0

theorem selectTypesList_eq_flatMap : ∀ (l : List GoType),
    selectTypesList l = l.flatMap selectTypes
  | [] => rfl
  | g :: gs => by
      simp [selectTypesList, selectTypesList_eq_flatMap gs]

theorem findIdx?_beq_eq_none_iff (c : Char) (l : List Char) :
    l.findIdx? (· == c) = none ↔ c ∉ l := by
  rw [List.findIdx?_eq_none_iff]
  constructor
  · intro h hm
    have hc := h c hm
    simp at hc
  · intro h x hx
    simp only [beq_eq_false_iff_ne, ne_eq]
    intro hxc
    exact h (hxc ▸ hx)

theorem findIdx?_take_eq_takeWhile (p : Char → Bool) :
    ∀ (l : List Char) (i : Nat), l.findIdx? p = some i →
      l.take i = l.takeWhile (fun c => ! p c)
  | [], i, h => by simp at h
  | x :: xs, i, h => by
      rw [List.findIdx?_cons] at h
      by_cases hx : p x
      · rw [if_pos hx] at h
        cases h
        simp [List.takeWhile_cons, hx]
      · rw [if_neg hx, List.findIdx?_succ] at h
        obtain ⟨j, hj, rfl⟩ := Option.map_eq_some'.mp h
        simp [List.takeWhile_cons, hx, List.take_succ_cons,
          findIdx?_take_eq_takeWhile p xs j hj]

theorem leafCand_match_eq_if (acc : List String) (l : List Char) :
    (match l.findIdx? (· == '.') with
      | some index => acc ++ [String.mk (l.take index)]
      | none => acc)
    = acc ++ (if '.' ∈ l
        then [String.mk (l.takeWhile (fun c => ! (c == '.')))]
        else []) := by
  split
  · next i hf =>
      have hmem : '.' ∈ l := by
        by_contra hc
        rw [(findIdx?_beq_eq_none_iff _ _).mpr hc] at hf
        cases hf
      rw [if_pos hmem, ← findIdx?_take_eq_takeWhile _ _ i hf]
  · next hf =>
      have hnm : '.' ∉ l := (findIdx?_beq_eq_none_iff _ _).mp hf
      rw [if_neg hnm, List.append_nil]

theorem selectPrefixesStep_eq (acc : List String) (s : String) :
    selectPrefixesStep acc s
      = acc ++ (if '.' ∈ (trimChar '*' s).toList
          then [String.mk ((trimChar '*' s).toList.takeWhile (fun c => ! (c == '.')))]
          else []) := by
  unfold selectPrefixesStep
  exact leafCand_match_eq_if acc ((trimChar '*' s).toList)

theorem selectPrefixes_foldl_eq (ls : List String) : ∀ (acc : List String),
    ls.foldl selectPrefixesStep acc
      = acc ++ ls.flatMap (fun s =>
          if '.' ∈ (trimChar '*' s).toList
          then [String.mk ((trimChar '*' s).toList.takeWhile (fun c => ! (c == '.')))]
          else []) := by
  induction ls with
  | nil =>
      intro acc
      simp
  | cons s ss ih =>
      intro acc
      rw [List.foldl_cons, List.flatMap_cons, selectPrefixesStep_eq, ih, List.append_assoc]

theorem selectPrefixes_eq_flatMap (leaves : List String) :
    selectPrefixes leaves = leaves.flatMap (fun s =>
      if '.' ∈ (trimChar '*' s).toList
      then [String.mk ((trimChar '*' s).toList.takeWhile (fun c => ! (c == '.')))]
      else []) := by
  rw [selectPrefixes, selectPrefixes_foldl_eq, List.nil_append]

theorem selectImportsStep_eq (allImports : List GoImport) (name : String) :
    ∀ (out : List String),
      selectImportsStep allImports out name
        = out ++ (allImports.filter (fun g => name == g.prefixStr)).map
            (fun g => g.name ++ " " ++ g.path) := by
  unfold selectImportsStep
  induction allImports with
  | nil =>
      intro out
      simp
  | cons g gs ih =>
      intro out
      rw [List.foldl_cons, List.filter_cons]
      by_cases h : (name == g.prefixStr) = true
      · rw [if_pos h, if_pos h, ih, List.map_cons, List.append_assoc, List.singleton_append]
      · rw [if_neg h, if_neg h, ih]

theorem selectImports_eq_flatMap (allImports : List GoImport) (names : List String) :
    selectImports allImports names = names.flatMap (fun name =>
      (allImports.filter (fun g => name == g.prefixStr)).map
        (fun g => g.name ++ " " ++ g.path)) := by
  suffices houter : ∀ (ns : List String) (acc : List String),
      ns.foldl (selectImportsStep allImports) acc
        = acc ++ ns.flatMap (fun name =>
            (allImports.filter (fun g => name == g.prefixStr)).map
              (fun g => g.name ++ " " ++ g.path)) by
    simpa [selectImports] using houter names []
  intro ns
  induction ns with
  | nil =>
      intro acc
      simp
  | cons n ns ih =>
      intro acc
      rw [List.foldl_cons, List.flatMap_cons, selectImportsStep_eq, ih, List.append_assoc]

theorem methodReturnsError_length_pos (rs : List GoType)
    (h : methodReturnsError rs = true) : 0 < rs.length := by
  cases rs with
  | nil => simp [methodReturnsError] at h
  | cons r rs' => simp

theorem modifyNames_lastName_err (rs : List GoType)
    (h : methodReturnsError rs = true) :
    ((modifyNames rs nameResult).map GoType.name).getLast? = some "err" := by
  rw [List.getLast?_map, modifyNames_getLast?]
  cases hlast : rs.getLast? with
  | none => simp [methodReturnsError, hlast] at h
  | some p =>
      have ht : p.type = "error" := by
        simpa [methodReturnsError, hlast] using h
      simp [GoType.name_withName, nameResult, ht]

/-! ### Claim theorems -/

/-- Claim C3: the naming pass gives the i-th parameter the name `p<i>`
regardless of type, gives the j-th result the name `v<j>` except the last
result of type `error` which is named `err`, and the assigned names
overwrite whatever names the descriptors carried before. -/
theorem modifyNames_positional (ps rs : List GoType) (i j : Nat) (s : String) :
    ((modifyNames ps nameParam)[i]?).map GoType.name
        = (ps[i]?).map (fun _ => "p" ++ toString i) ∧
    ((modifyNames rs nameResult)[j]?).map GoType.name
        = (rs[j]?).map (fun p =>
            if j == rs.length - 1 && p.type == "error" then "err"
            else "v" ++ toString j) ∧
    modifyNames (ps.map (fun p => p.withName s)) nameParam = modifyNames ps nameParam ∧
    modifyNames (rs.map (fun p => p.withName s)) nameResult = modifyNames rs nameResult := by
  refine ⟨?_, ?_, modifyNames_overwrites ps nameParam s, modifyNames_overwrites rs nameResult s⟩
  · rw [modifyNames_getElem?]
    cases ps[i]? <;> simp [nameParam, GoType.name_withName]
  · rw [modifyNames_getElem?]
    cases rs[j]? <;> simp [nameResult, GoType.name_withName]

/-- Claim C10: the naming pass only changes names: type texts, child
descriptors, count and order are untouched, so the error classification (and
hence the template choice, which the code computes before renaming) is the
same on renamed descriptors as on the original type texts. -/
theorem modifyNames_frame (ps rs : List GoType) (f : Nat → String → Nat → String) :
    (modifyNames ps f).length = ps.length ∧
    (modifyNames ps f).map GoType.type = ps.map GoType.type ∧
    (modifyNames ps f).map GoType.inner = ps.map GoType.inner ∧
    methodReturnsError (modifyNames rs nameResult) = methodReturnsError rs :=
  ⟨modifyNames_length ps f, modifyNames_map_type ps f, modifyNames_map_inner ps f,
    methodReturnsError_modifyNames rs nameResult⟩

/-- Claim C4: a descriptor with no children contributes its own type text as
the only leaf, a composite descriptor contributes exactly its children's
leaves; each leaf, after trimming `*` markers, yields the text before its
first `.` as a candidate prefix, and leaves without a `.` yield nothing. -/
theorem selectTypes_leaves_selectPrefixes_cands (n t : String) (g : GoType)
    (gs : List GoType) (leaves : List String) :
    selectTypes (GoType.mk n t []) = [t] ∧
    selectTypes (GoType.mk n t (g :: gs)) = (g :: gs).flatMap selectTypes ∧
    selectPrefixes leaves = leaves.flatMap (fun s =>
      if '.' ∈ (trimChar '*' s).toList
      then [String.mk ((trimChar '*' s).toList.takeWhile (fun c => ! (c == '.')))]
      else []) := by
  refine ⟨rfl, ?_, selectPrefixes_eq_flatMap leaves⟩
  rw [selectTypes, selectTypesList_eq_flatMap]

/-- Claim C1: a method whose last result type is `error` is rendered with the
error-terminated template: the closure captures all named results (the last
temporary is `err`) from the forwarded call and returns `err`, the wrapper
assigns `this.Decorator(methodName, call)` to `err` and returns the full
named-result tuple; the assignment token is `=` since the result list is
non-empty. -/
theorem writeMethod_errTerminated (m : GoMethod) (iname : String)
    (h : methodReturnsError m.results = true) :
    writeMethod m iname =
      methodFormatWithErr iname m.name
        (formatNameAndType (modifyNames m.params nameParam))
        (formatNameAndType (modifyNames m.results nameResult))
        (formatNames (modifyNames m.results nameResult) false)
        (formatNames (modifyNames m.params nameParam) true)
        "=" ∧
    ((modifyNames m.results nameResult).map GoType.name).getLast? = some "err" := by
  refine ⟨?_, modifyNames_lastName_err m.results h⟩
  have hlen : 0 < m.results.length := methodReturnsError_length_pos m.results h
  simp [writeMethod, h, hlen]

/-- Witness for `writeMethod_errTerminated` at the `Maybe() error` method of
the `Sample` interface. -/
theorem writeMethod_errTerminated_witness :
    methodReturnsError [GoType.mk "" "error" []] = true ∧
    (writeMethod (GoMethod.mk "Maybe" [] [GoType.mk "" "error" []]) "Sample" =
      methodFormatWithErr "Sample" "Maybe"
        (formatNameAndType (modifyNames [] nameParam))
        (formatNameAndType (modifyNames [GoType.mk "" "error" []] nameResult))
        (formatNames (modifyNames [GoType.mk "" "error" []] nameResult) false)
        (formatNames (modifyNames [] nameParam) true)
        "=" ∧
    ((modifyNames [GoType.mk "" "error" []] nameResult).map GoType.name).getLast?
        = some "err") :=
  ⟨by decide,
    writeMethod_errTerminated (GoMethod.mk "Maybe" [] [GoType.mk "" "error" []]) "Sample"
      (by decide)⟩

/-- Claim C2: a method that is not error-terminated is rendered with the
plain template: the closure captures any results from the forwarded call and
returns `nil`, the interception function's result is discarded into `_`, and
the wrapper returns the captured tuple; with zero results no `=` token is
emitted before the forwarding call. -/
theorem writeMethod_plain (m : GoMethod) (iname : String)
    (h : methodReturnsError m.results = false) :
    writeMethod m iname =
      methodFormatNoErr iname m.name
        (formatNameAndType (modifyNames m.params nameParam))
        (formatNameAndType (modifyNames m.results nameResult))
        (formatNames (modifyNames m.results nameResult) false)
        (formatNames (modifyNames m.params nameParam) true)
        (if m.results.length > 0 then "=" else "") ∧
    (m.results = [] →
      writeMethod m iname =
        methodFormatNoErr iname m.name
          (formatNameAndType (modifyNames m.params nameParam)) "" ""
          (formatNames (modifyNames m.params nameParam) true) "") := by
  constructor
  · simp [writeMethod, h]
  · intro hnil
    simp [writeMethod, h, hnil, methodReturnsError, modifyNames, modifyNamesAux,
      formatNameAndType, formatNames, String.intercalate]

/-- Witness for `writeMethod_plain` at the `Do()` method of the `Sample`
interface. -/
theorem writeMethod_plain_witness :
    methodReturnsError ([] : List GoType) = false ∧
    (writeMethod (GoMethod.mk "Do" [] []) "Sample" =
      methodFormatNoErr "Sample" "Do"
        (formatNameAndType (modifyNames [] nameParam))
        (formatNameAndType (modifyNames [] nameResult))
        (formatNames (modifyNames [] nameResult) false)
        (formatNames (modifyNames [] nameParam) true)
        (if ([] : List GoType).length > 0 then "=" else "") ∧
    (([] : List GoType) = [] →
      writeMethod (GoMethod.mk "Do" [] []) "Sample" =
        methodFormatNoErr "Sample" "Do"
          (formatNameAndType (modifyNames [] nameParam)) "" ""
          (formatNames (modifyNames [] nameParam) true) "")) :=
  ⟨by decide, writeMethod_plain (GoMethod.mk "Do" [] []) "Sample" (by decide)⟩

/-- Claim C5 (amended): matching a candidate prefix against the import
declarations is exact string equality with the declaration's derived prefix
and unmatched candidates are dropped silently, but there is no
deduplication: the resolved list holds one `"alias path"` entry per
(candidate occurrence, matching declaration) pair. -/
theorem selectImports_matched_per_leaf (allImports : List GoImport) (names : List String) :
    selectImports allImports names = names.flatMap (fun name =>
      (allImports.filter (fun g => name == g.prefixStr)).map
        (fun g => g.name ++ " " ++ g.path)) :=
  selectImports_eq_flatMap allImports names

/-- Counterexample to claim C5 as stated: a method mentioning `os.File` as a
parameter and `*os.File` as a result makes the candidate `os` occur twice,
and the single matching `"os"` declaration then appears twice in the
resolved imports, so the resolved output is not a minimal duplicate-free
set of imports. -/
theorem selectImports_duplicate_entries :
    selectImports [GoImport.mk "" "\"os\"" "os"]
        (findPackages (GoInterface.mk "R"
          [GoMethod.mk "Remote" [GoType.mk "" "os.File" []]
            [GoType.mk "" "*os.File" [], GoType.mk "" "error" []]] "main"))
      = [" \"os\"", " \"os\""] ∧
    ¬ (selectImports [GoImport.mk "" "\"os\"" "os"]
        (findPackages (GoInterface.mk "R"
          [GoMethod.mk "Remote" [GoType.mk "" "os.File" []]
            [GoType.mk "" "*os.File" [], GoType.mk "" "error" []]] "main"))).Nodup := by
  constructor
  · decide
  · decide

/-- Claim C6 (amended): every `-import` flag value is stored after trimming
surrounding double quotes and wrapping in double quotes, and that normalized
entry is always emitted, ahead of all resolved imports, with no
deduplication against them. -/
theorem lookupImports_requests_first (iface : GoInterface) (allImports : List GoImport)
    (flags : List String) (v : String) :
    lookupImports iface allImports (importSet flags v)
        = flags ++ ["\"" ++ trimChar '"' v ++ "\""]
            ++ selectImports allImports (findPackages iface) ∧
    ("\"" ++ trimChar '"' v ++ "\"") ∈ lookupImports iface allImports (importSet flags v) := by
  constructor
  · rw [lookupImports, importSet, List.append_assoc]
  · rw [lookupImports, importSet]
    simp

/-- Counterexample to claim C6 as stated: the supplied import request `os`
is not included character for character; the generated import list holds the
quote-wrapped `"os"` instead. -/
theorem importRequest_not_verbatim :
    lookupImports (GoInterface.mk "I" [] "main") [] (importSet [] "os") = ["\"os\""] ∧
    "os" ∉ lookupImports (GoInterface.mk "I" [] "main") [] (importSet [] "os") := by
  constructor
  · decide
  · decide

/-- Claim C7: the forwarding argument list suffixes exactly those parameter
names whose type text begins with `...` with an ellipsis marker, the
return-value list never receives the suffix, and for
`Range(format string, args ...interface\x7b\x7d)` the forwarded arguments
render as `p0, p1...`. -/
theorem formatNames_ellipsis_expansion (params : List GoType) :
    formatNames params true = String.intercalate ", " (params.map (fun t =>
      if strStarts t.type "..." then t.name ++ "..." else t.name)) ∧
    formatNames params false = String.intercalate ", " (params.map GoType.name) ∧
    formatNames (modifyNames
      [GoType.mk "format" "string" [], GoType.mk "args" "...interface\x7b\x7d" []]
      nameParam) true = "p0, p1..." := by
  refine ⟨?_, ?_, by decide⟩
  · simp [formatNames]
  · simp [formatNames]

/-- Claim C8 evaluation: an input path that does not end in `.go` (here the
empty path, as when the file argument is omitted, and a `.txt` path) makes
`parsePackage` return the absent model silently instead of terminating with
a diagnostic, even when the external parser would report the source as
unreadable. -/
theorem parsePackage_silent_non_go :
    parsePackage "" (fun _ => Except.error "unreadable") = Except.ok none ∧
    parsePackage "input.txt" (fun _ => Except.error "unreadable") = Except.ok none := by
  constructor
  · rfl
  · rfl

/-- Claim C9: when the external formatter rejects the generated text the
output is the raw buffer unchanged and the warning is recorded without
failing; when the formatter succeeds its output is returned verbatim. -/
theorem formatSource_fallback (buf : String) (formatter : String → Except String String) :
    (∀ e, formatter buf = Except.error e →
      formatSource buf formatter = { output := buf, warned := true }) ∧
    (∀ s, formatter buf = Except.ok s →
      formatSource buf formatter = { output := s, warned := false }) := by
  constructor
  · intro e he
    rw [formatSource, he]
  · intro s hs
    rw [formatSource, hs]

/-- Witness for `formatSource_fallback` with a formatter that rejects the
buffer `raw`. -/
theorem formatSource_fallback_witness :
    ((fun _ => Except.error "bad" : String → Except String String) "raw"
        = Except.error "bad") ∧
    formatSource "raw" (fun _ => Except.error "bad")
        = { output := "raw", warned := true } :=
  ⟨rfl, (formatSource_fallback "raw" (fun _ => Except.error "bad")).1 "bad" rfl⟩
